import Mathlib

/-!
Verification development for the probe-and-aggregate pipeline of
`wifi_monitor.py` (an internet connectivity monitor).  The Python source is
shallowly embedded: dictionaries of probe outcomes become lists of structures
(in insertion order), Python floats become exact rationals, `round(x, n)`
becomes round-half-to-even on rationals, and Python truthiness tests are made
explicit.  All definitions are executable.
-/

namespace WifiMonitor

/-- Model of Python's `round(q)` to an integer: round half to even. -/
def pyRound (q : ℚ) : ℤ :=
  let f : ℤ := ⌊q⌋
  let r : ℚ := q - (f : ℚ)
  if r < 1/2 then f
  else if 1/2 < r then f + 1
  else if 2 ∣ f then f else f + 1

/-- Model of Python's `round(q, 1)`. -/
def round1 (q : ℚ) : ℚ := (pyRound (q * 10) : ℚ) / 10

/-- Model of Python's `round(q, 2)`. -/
def round2 (q : ℚ) : ℚ := (pyRound (q * 100) : ℚ) / 100

/-- Model of Python's substring test `pat in s`, on explicit character lists. -/
def containsChars (pat s : List Char) : Bool :=
  s.tails.any (fun t => pat.isPrefixOf t)

/-- Substring test on strings, modelling Python's `pat in s`. -/
def strContains (s pat : String) : Bool := containsChars pat.toList s.toList

/-- Outcome of one ping probe, as produced by `ping_host` (the fields read by
`_calculate_summary`). -/
structure PingResult where
  success : Bool
  latency_ms : Option ℚ
  error : Option String

/-- Outcome of one HTTP/HTTPS probe, as produced by `test_http_connectivity`
(the fields read by `_calculate_summary`). -/
structure HttpResult where
  success : Bool
  response_time_ms : Option ℚ

/-- Outcome of one DNS probe, as produced by `test_dns_resolution` (the field
read by `_calculate_summary`). -/
structure DnsResult where
  success : Bool

/-- The `results["tests"]` mapping: per category, the outcome dictionary's
values in insertion order. -/
structure Tests where
  ping : List PingResult
  http : List HttpResult
  https : List HttpResult
  dns : List DnsResult

/-- The summary dictionary produced by `_calculate_summary`. -/
structure Summary where
  overall_score : ℚ
  connectivity_status : String
  ping_success_rate : ℚ
  http_success_rate : ℚ
  https_success_rate : ℚ
  dns_success_rate : ℚ
  average_ping_latency : Option ℚ
  average_http_response_time : Option ℚ
  issues_detected : List String

def pingUnavailableIssue : String := "Ping command unavailable - unable to test packet loss"

def packetLossIssue : String := "High packet loss detected"

def dnsIssue : String := "DNS resolution issues"

def httpIssue : String := "HTTP connectivity problems"

def latencyIssue : String := "High latency detected"

/-- The error-substring test from `_calculate_summary` lines 878-882: a failed
ping whose error mentions a missing ping command.  Python's
`r["error"] and (p1 in r["error"] or ...)` is false for `None` and for the
empty string; an empty string contains none of the nonempty patterns, so the
truthiness guard is redundant and the match is just the substring test. -/
def isPingCmdError (e : Option String) : Bool :=
  match e with
  | none => false
  | some s =>
      strContains s "No such file or directory" ||
      strContains s "command not found" ||
      strContains s "Ping command not found"

/-- Python truthiness of an optional number: `None` and `0` are falsy. -/
def truthyOptQ (x : Option ℚ) : Bool :=
  match x with
  | none => false
  | some v => decide (v ≠ 0)

/-- Condition of `_calculate_summary` line 895:
`summary["average_ping_latency"] and summary["average_ping_latency"] > 500`.
Since `0 > 500` is false, the truthiness guard only excludes `None`. -/
def latencyFlag (avg : Option ℚ) : Bool :=
  match avg with
  | some l => decide (500 < l)
  | none => false

/-- Translation of `_calculate_summary` (lines 810-898).  Success rates are
`(successes / total) * 100` with the `0` initial value kept when a category is
empty; averages are means over entries passing the Python truthiness filter
`r["success"] and r["latency_ms"]` (resp. `response_time_ms`); the status
thresholds are applied to the unrounded mean `overall_success_rate`. -/
def calculate_summary (tests : Tests) : Summary :=
  let ping_results := tests.ping
  let ping_success_rate : ℚ :=
    if ping_results.isEmpty then 0
    else ((ping_results.countP (fun r => r.success)) : ℚ) / (ping_results.length : ℚ) * 100
  let successful_pings : List ℚ :=
    ping_results.filterMap (fun r =>
      if r.success && truthyOptQ r.latency_ms then r.latency_ms else none)
  let average_ping_latency : Option ℚ :=
    if successful_pings.isEmpty then none
    else some (round2 (successful_pings.sum / (successful_pings.length : ℚ)))
  let http_results := tests.http
  let http_success_rate : ℚ :=
    if http_results.isEmpty then 0
    else ((http_results.countP (fun r => r.success)) : ℚ) / (http_results.length : ℚ) * 100
  let successful_http : List ℚ :=
    http_results.filterMap (fun r =>
      if r.success && truthyOptQ r.response_time_ms then r.response_time_ms else none)
  let average_http_response_time : Option ℚ :=
    if successful_http.isEmpty then none
    else some (round2 (successful_http.sum / (successful_http.length : ℚ)))
  let https_results := tests.https
  let https_success_rate : ℚ :=
    if https_results.isEmpty then 0
    else ((https_results.countP (fun r => r.success)) : ℚ) / (https_results.length : ℚ) * 100
  let dns_results := tests.dns
  let dns_success_rate : ℚ :=
    if dns_results.isEmpty then 0
    else ((dns_results.countP (fun r => r.success)) : ℚ) / (dns_results.length : ℚ) * 100
  let success_rates : List ℚ :=
    [ping_success_rate, http_success_rate, https_success_rate, dns_success_rate]
  let overall_success_rate : ℚ := success_rates.sum / (success_rates.length : ℚ)
  let overall_score : ℚ := round1 overall_success_rate
  let connectivity_status : String :=
    if 90 ≤ overall_success_rate then "Excellent"
    else if 75 ≤ overall_success_rate then "Good"
    else if 50 ≤ overall_success_rate then "Poor"
    else "Failed"
  let ping_command_errors : ℕ :=
    ping_results.countP (fun r => !r.success && isPingCmdError r.error)
  let issues_detected : List String :=
    (if ping_success_rate < 50 then
       (if ping_command_errors = ping_results.length then [pingUnavailableIssue]
        else [packetLossIssue])
     else []) ++
    (if dns_success_rate < 75 then [dnsIssue] else []) ++
    (if http_success_rate < 75 then [httpIssue] else []) ++
    (if latencyFlag average_ping_latency then [latencyIssue] else [])
  { overall_score := overall_score
    connectivity_status := connectivity_status
    ping_success_rate := ping_success_rate
    http_success_rate := http_success_rate
    https_success_rate := https_success_rate
    dns_success_rate := dns_success_rate
    average_ping_latency := average_ping_latency
    average_http_response_time := average_http_response_time
    issues_detected := issues_detected }

/-- One persisted CSV record, reduced to the fields the aggregator's outage
scan reads (`timestamp` and the parsed `overall_score`). -/
structure LogRow where
  timestamp : String
  overall_score : ℚ

/-- The outage-detection loop of `_generate_analysis_report` (lines 1026-1041):
the list is scanned in stored order with an index `i` and an optional
`current_outage_start`; on leaving a below-50 run the pair
`(current_outage_start, i - 1)` is appended, and a run still open at the end
of the list is closed with `(current_outage_start, length - 1)`. -/
def outagesAux : List ℚ → ℕ → Option ℕ → List (ℕ × ℕ)
  | [], _, none => []
  | [], n, some s => [(s, n - 1)]
  | sc :: rest, i, none =>
      if sc < 50 then outagesAux rest (i + 1) (some i)
      else outagesAux rest (i + 1) none
  | sc :: rest, i, some s =>
      if sc < 50 then outagesAux rest (i + 1) (some s)
      else (s, i - 1) :: outagesAux rest (i + 1) none

/-- Outage intervals (as index pairs) detected over a stored score sequence. -/
def outages (scores : List ℚ) : List (ℕ × ℕ) := outagesAux scores 0 none

/-- The `outage_details` projection of `_generate_analysis_report`
(lines 1071-1078): boundary timestamps plus `duration_minutes = end - start + 1`. -/
def outage_details (rows : List LogRow) : List (String × String × ℕ) :=
  (outages (rows.map (fun r => r.overall_score))).map (fun p =>
    ((rows.getD p.1 ⟨"", 0⟩).timestamp, (rows.getD p.2 ⟨"", 0⟩).timestamp, p.2 - p.1 + 1))

/-- Modelled from the spec: "groups maximal consecutive runs where score is
below 50 into outage intervals".  A run starts at the first below-threshold
record, extends through every consecutive below-threshold record
(`takeWhile`), and scanning resumes at the first record past the run.  This
definition is the spec-side reading of the claim, to be compared with the
source-side `outages`. -/
def maximalLowRuns : ℕ → List ℚ → List (ℕ × ℕ)
  | _, [] => []
  | i, sc :: rest =>
      if sc < 50 then
        (i, i + (rest.takeWhile (fun x => decide (x < 50))).length) ::
          maximalLowRuns (i + (rest.takeWhile (fun x => decide (x < 50))).length + 1)
            (rest.drop (rest.takeWhile (fun x => decide (x < 50))).length)
      else maximalLowRuns (i + 1) rest
termination_by _ l => l.length
decreasing_by
  all_goals simp only [List.length_cons, List.length_drop]
  · omega
  · omega

/-- Translation of `_generate_recommendations` (lines 1085-1107): fixed rules
each append one fixed string; if none fires, the single "appears acceptable"
recommendation is emitted.  The `issues` argument models the keys of the
`issue_counts` dictionary. -/
def generate_recommendations (avg_score : ℚ) (uptime : ℚ) (issues : List String) : List String :=
  let recommendations : List String :=
    (if uptime < 95 then
       ["Internet connectivity is below acceptable standards (95% uptime)"] else []) ++
    (if avg_score < 75 then
       ["Overall connection quality is poor - contact ISP for service review"] else []) ++
    (if packetLossIssue ∈ issues then
       ["High packet loss indicates network infrastructure problems"] else []) ++
    (if dnsIssue ∈ issues then
       ["DNS problems detected - may need DNS server configuration review"] else []) ++
    (if latencyIssue ∈ issues then
       ["Consistent high latency suggests routing or congestion issues"] else [])
  if recommendations.isEmpty then ["Connection quality appears acceptable"] else recommendations

/-- Reading the existing CSV rows in `_log_to_csv` (lines 926-934): an absent
or unreadable file yields the empty row list. -/
def read_existing_rows {α : Type} (file : Option (List α)) : List α := file.getD []

/-- The primary write path of `_log_to_csv` (lines 936-945) as a pure state
transformation on the file's data rows: header, then the new row, then all
previously existing rows in their prior relative order. -/
def log_to_csv {α : Type} (row : α) (file : Option (List α)) : Option (List α) :=
  some (row :: read_existing_rows file)

/-- Persisting a sequence of snapshots in order, starting from an absent log. -/
def persist_all {α : Type} (rows : List α) : Option (List α) :=
  rows.foldl (fun f r => log_to_csv r f) none

/-- Python `dict` insertion on an association list kept in insertion order:
overwriting an existing key keeps its position, a new key is appended. -/
def dictInsert {α β : Type} [DecidableEq α] (m : List (α × β)) (k : α) (v : β) :
    List (α × β) :=
  if k ∈ m.map (fun p => p.1) then
    m.map (fun p => if p.1 = k then (k, v) else p)
  else m ++ [(k, v)]

/-- The per-future collection step of `run_connectivity_tests` (lines 761-803):
a worker either returns an outcome or raises, and a raise is folded into a
synthesized failure outcome for the same target. -/
def foldOutcome {β : Type} (mkFail : String → β) (r : Except String β) : β :=
  match r with
  | .ok v => v
  | .error e => mkFail e

/-- The fan-in of `run_connectivity_tests` for one category: every submitted
target's result is inserted into the results dictionary, in completion order
`order`, with worker exceptions folded into failure outcomes. -/
def collectResults {α β : Type} [DecidableEq α] (order : List α)
    (worker : α → Except String β) (mkFail : String → β) : List (α × β) :=
  order.foldl (fun m t => dictInsert m t (foldOutcome mkFail (worker t))) []

/-- The synthesized failure outcome for a ping worker that raised
(`run_connectivity_tests` lines 767-770). -/
def pingFailureOutcome (e : String) : PingResult :=
  { success := false, latency_ms := none, error := some e }

/-- The separator `"; "` used by `_log_to_csv` to join issue strings. -/
def issueSep : List Char := [';', ' ']

/-- Model of Python's `'; '.join(issues)` at the character level. -/
def joinIssues (issues : List String) : List Char :=
  List.intercalate issueSep (issues.map String.toList)

/-- Model of Python's `s.split('; ')`, specialized to the two-character
separator: scan left to right, splitting at each non-overlapping occurrence. -/
def splitIssueSep : List Char → List (List Char)
  | [] => [[]]
  | [c] => [[c]]
  | c1 :: c2 :: rest =>
      if c1 = ';' ∧ c2 = ' ' then [] :: splitIssueSep rest
      else
        match splitIssueSep (c2 :: rest) with
        | [] => [[c1]]
        | h :: t => (c1 :: h) :: t

/-- Model of Python's `s.strip()` at the character level. -/
def pyStrip (s : List Char) : List Char :=
  ((s.dropWhile Char.isWhitespace).reverse.dropWhile Char.isWhitespace).reverse

/-- The sequence of issues the aggregator's tally loop counts for one record
(`_generate_analysis_report` lines 1043-1051): nothing if the stored field is
falsy, otherwise the split parts, stripped, with empty parts skipped.  Each
element of the returned list is counted exactly once. -/
def talliedIssues (field : List Char) : List (List Char) :=
  if field.isEmpty then []
  else ((splitIssueSep field).map pyStrip).filter (fun x => !x.isEmpty)

/-- Success rate of one category, as readable view of the source expression. -/
def categoryRate {α : Type} (results : List α) (succ : α → Bool) : ℚ :=
  if results.isEmpty then 0
  else ((results.countP succ) : ℚ) / (results.length : ℚ) * 100

/-- The unrounded mean of the four success rates, i.e. the source's
`overall_success_rate` local. -/
def overallMean (t : Tests) : ℚ :=
  (categoryRate t.ping (fun r => r.success) + categoryRate t.http (fun r => r.success) +
   categoryRate t.https (fun r => r.success) + categoryRate t.dns (fun r => r.success)) / 4

/-- Concrete input for the status/score counterexample: ping, http and https
each one success (rate 100), dns 61 successes out of 102 (rate 6100/102), so
the unrounded mean is 9175/102, strictly between 89.95 and 90. -/
def statusCexTests : Tests :=
  { ping := [{ success := true, latency_ms := some 10, error := none }]
    http := [{ success := true, response_time_ms := some 100 }]
    https := [{ success := true, response_time_ms := some 100 }]
    dns := List.replicate 61 ⟨true⟩ ++ List.replicate 41 ⟨false⟩ }

/-- Concrete input for the average-latency counterexample: two successful
pings, one with latency 10 and one with latency 0. -/
def latencyCexTests : Tests :=
  { ping := [{ success := true, latency_ms := some 10, error := none },
             { success := true, latency_ms := some 0, error := none }]
    http := []
    https := []
    dns := [] }

/-- Modelled from the amended claim's words: the successful ping entries whose
reported latency is a numeric, nonzero (truthy) value, and their latencies. -/
def nonzeroLatencyPool (l : List PingResult) : List ℚ :=
  (l.filter (fun r => r.success && truthyOptQ r.latency_ms)).filterMap
    (fun r => r.latency_ms)

/-- Concrete input witnessing the ping-issue selection: a single failed ping
whose error reports a missing ping command. -/
def c4WitnessTests : Tests :=
  { ping := [{ success := false, latency_ms := none,
               error := some "Ping command not found: ping" }]
    http := []
    https := []
    dns := [] }

/-- All issue lists the scoring engine can emit: one choice from the ping
rule (nothing, tool-unavailable, or packet-loss), then optionally the DNS,
HTTP and latency issues, in that fixed order. -/
def issueListCases : List (List String) :=
  ([([] : List String), [pingUnavailableIssue], [packetLossIssue]]).flatMap (fun a =>
  ([([] : List String), [dnsIssue]]).flatMap (fun b =>
  ([([] : List String), [httpIssue]]).flatMap (fun c =>
  ([([] : List String), [latencyIssue]]).map (fun d => a ++ b ++ c ++ d))))

end WifiMonitor

namespace WifiMonitor

theorem ping_rate_view (t : Tests) :
    (calculate_summary t).ping_success_rate = categoryRate t.ping (fun r => r.success) := rfl

theorem http_rate_view (t : Tests) :
    (calculate_summary t).http_success_rate = categoryRate t.http (fun r => r.success) := rfl

theorem https_rate_view (t : Tests) :
    (calculate_summary t).https_success_rate = categoryRate t.https (fun r => r.success) := rfl

theorem dns_rate_view (t : Tests) :
    (calculate_summary t).dns_success_rate = categoryRate t.dns (fun r => r.success) := rfl

theorem mean_view (t : Tests) :
    ([categoryRate t.ping (fun r => r.success), categoryRate t.http (fun r => r.success),
      categoryRate t.https (fun r => r.success), categoryRate t.dns (fun r => r.success)].sum : ℚ) /
      (([categoryRate t.ping (fun r => r.success), categoryRate t.http (fun r => r.success),
        categoryRate t.https (fun r => r.success),
        categoryRate t.dns (fun r => r.success)] : List ℚ).length : ℚ) = overallMean t := by
  simp only [List.sum_cons, List.sum_nil, List.length_cons, List.length_nil, overallMean]
  push_cast
  ring

theorem score_view (t : Tests) :
    (calculate_summary t).overall_score = round1 (overallMean t) := by
  calc (calculate_summary t).overall_score
      = round1 (([categoryRate t.ping (fun r => r.success), categoryRate t.http (fun r => r.success),
          categoryRate t.https (fun r => r.success), categoryRate t.dns (fun r => r.success)].sum : ℚ) /
          (([categoryRate t.ping (fun r => r.success), categoryRate t.http (fun r => r.success),
            categoryRate t.https (fun r => r.success),
            categoryRate t.dns (fun r => r.success)] : List ℚ).length : ℚ)) := rfl
    _ = round1 (overallMean t) := by rw [mean_view]

theorem status_view (t : Tests) :
    (calculate_summary t).connectivity_status =
      (if 90 ≤ overallMean t then "Excellent"
       else if 75 ≤ overallMean t then "Good"
       else if 50 ≤ overallMean t then "Poor"
       else "Failed") := by
  calc (calculate_summary t).connectivity_status
      = (if 90 ≤ (([categoryRate t.ping (fun r => r.success), categoryRate t.http (fun r => r.success),
          categoryRate t.https (fun r => r.success), categoryRate t.dns (fun r => r.success)].sum : ℚ) /
          (([categoryRate t.ping (fun r => r.success), categoryRate t.http (fun r => r.success),
            categoryRate t.https (fun r => r.success),
            categoryRate t.dns (fun r => r.success)] : List ℚ).length : ℚ)) then "Excellent"
         else if 75 ≤ (([categoryRate t.ping (fun r => r.success), categoryRate t.http (fun r => r.success),
          categoryRate t.https (fun r => r.success), categoryRate t.dns (fun r => r.success)].sum : ℚ) /
          (([categoryRate t.ping (fun r => r.success), categoryRate t.http (fun r => r.success),
            categoryRate t.https (fun r => r.success),
            categoryRate t.dns (fun r => r.success)] : List ℚ).length : ℚ)) then "Good"
         else if 50 ≤ (([categoryRate t.ping (fun r => r.success), categoryRate t.http (fun r => r.success),
          categoryRate t.https (fun r => r.success), categoryRate t.dns (fun r => r.success)].sum : ℚ) /
          (([categoryRate t.ping (fun r => r.success), categoryRate t.http (fun r => r.success),
            categoryRate t.https (fun r => r.success),
            categoryRate t.dns (fun r => r.success)] : List ℚ).length : ℚ)) then "Poor"
         else "Failed") := rfl
    _ = _ := by rw [mean_view]

theorem categoryRate_bounds {α : Type} (l : List α) (p : α → Bool) :
    0 ≤ categoryRate l p ∧ categoryRate l p ≤ 100 := by
  unfold categoryRate
  split_ifs with h
  · norm_num
  · have hne : l ≠ [] := fun hl => h (by simp [hl])
    have hlen : 0 < (l.length : ℚ) := by
      have : 0 < l.length := List.length_pos.mpr hne
      exact_mod_cast this
    have hc0 : (0 : ℚ) ≤ (l.countP p : ℚ) := by positivity
    have hc : (l.countP p : ℚ) ≤ (l.length : ℚ) := by
      exact_mod_cast List.countP_le_length p
    constructor
    · positivity
    · have h1 : (l.countP p : ℚ) / (l.length : ℚ) ≤ 1 := (div_le_one hlen).mpr hc
      calc (l.countP p : ℚ) / (l.length : ℚ) * 100 ≤ 1 * 100 := by
            exact mul_le_mul_of_nonneg_right h1 (by norm_num)
        _ = 100 := by norm_num

theorem categoryRate_formula {α : Type} (l : List α) (p : α → Bool) :
    categoryRate l p =
      (if l.isEmpty then 0 else 100 * ((l.countP p) : ℚ) / (l.length : ℚ)) := by
  unfold categoryRate
  split
  · rfl
  · ring

/-- C1: for every probe-outcome mapping, each of the four per-category success
rates lies in [0,100] and equals `100 * successes / total` (`0` for an empty
category), and the overall score is the arithmetic mean of the four rates
rounded to one decimal place. -/
theorem c1_rates_bounded_score_is_rounded_mean (t : Tests) :
    (0 ≤ (calculate_summary t).ping_success_rate ∧ (calculate_summary t).ping_success_rate ≤ 100) ∧
    (0 ≤ (calculate_summary t).http_success_rate ∧ (calculate_summary t).http_success_rate ≤ 100) ∧
    (0 ≤ (calculate_summary t).https_success_rate ∧ (calculate_summary t).https_success_rate ≤ 100) ∧
    (0 ≤ (calculate_summary t).dns_success_rate ∧ (calculate_summary t).dns_success_rate ≤ 100) ∧
    ((calculate_summary t).ping_success_rate =
      (if t.ping.isEmpty then 0 else 100 * ((t.ping.countP (fun r => r.success)) : ℚ) / (t.ping.length : ℚ))) ∧
    ((calculate_summary t).http_success_rate =
      (if t.http.isEmpty then 0 else 100 * ((t.http.countP (fun r => r.success)) : ℚ) / (t.http.length : ℚ))) ∧
    ((calculate_summary t).https_success_rate =
      (if t.https.isEmpty then 0 else 100 * ((t.https.countP (fun r => r.success)) : ℚ) / (t.https.length : ℚ))) ∧
    ((calculate_summary t).dns_success_rate =
      (if t.dns.isEmpty then 0 else 100 * ((t.dns.countP (fun r => r.success)) : ℚ) / (t.dns.length : ℚ))) ∧
    (calculate_summary t).overall_score =
      round1 (((calculate_summary t).ping_success_rate + (calculate_summary t).http_success_rate +
        (calculate_summary t).https_success_rate + (calculate_summary t).dns_success_rate) / 4) := by
  refine ⟨?_, ?_, ?_, ?_, ?_, ?_, ?_, ?_, ?_⟩
  · exact (ping_rate_view t) ▸ categoryRate_bounds t.ping _
  · exact (http_rate_view t) ▸ categoryRate_bounds t.http _
  · exact (https_rate_view t) ▸ categoryRate_bounds t.https _
  · exact (dns_rate_view t) ▸ categoryRate_bounds t.dns _
  · exact (ping_rate_view t).trans (categoryRate_formula t.ping _)
  · exact (http_rate_view t).trans (categoryRate_formula t.http _)
  · exact (https_rate_view t).trans (categoryRate_formula t.https _)
  · exact (dns_rate_view t).trans (categoryRate_formula t.dns _)
  · rw [score_view, ping_rate_view, http_rate_view, https_rate_view, dns_rate_view]
    rfl

/-- C2 counterexample: on `statusCexTests` the Summary's overall score is
exactly 90, yet the reported status is "Good", not "Excellent" — so the
status is not the claimed step function of the (rounded) overall score.  The
unrounded mean here is 9175/102, strictly between 89.95 and 90, and rounding
carries the stored score up across the band boundary. -/
theorem c2_counterexample :
    (calculate_summary statusCexTests).overall_score = 90 ∧
    (calculate_summary statusCexTests).connectivity_status = "Good" ∧
    ("Good" : String) ≠ "Excellent" := by
  refine ⟨?_, ?_, by decide⟩ <;>
    · simp only [calculate_summary, statusCexTests]
      norm_num [List.countP_replicate, round1, pyRound]

/-- C2 (amended): the categorical status is the lower-inclusive step function
(bands at 90/75/50) of the UNROUNDED mean of the four success rates, not of
the rounded stored score; the two agree except when the mean falls within
0.05 below a band boundary. -/
theorem c2_status_step_of_unrounded_mean (t : Tests) :
    ((calculate_summary t).connectivity_status = "Excellent" ↔ 90 ≤ overallMean t) ∧
    ((calculate_summary t).connectivity_status = "Good" ↔
      75 ≤ overallMean t ∧ overallMean t < 90) ∧
    ((calculate_summary t).connectivity_status = "Poor" ↔
      50 ≤ overallMean t ∧ overallMean t < 75) ∧
    ((calculate_summary t).connectivity_status = "Failed" ↔ overallMean t < 50) := by
  rw [status_view t]
  split_ifs with h1 h2 h3 <;>
    refine ⟨?_, ?_, ?_, ?_⟩ <;>
    constructor <;>
    intro hh <;>
    first
      | rfl
      | linarith
      | (exact absurd hh (by decide))
      | (exact absurd hh (by linarith))
      | (refine ⟨by linarith, by linarith⟩)

theorem c2_witness :
    (calculate_summary (Tests.mk [] [] [] [])).connectivity_status = "Failed" :=
  (c2_status_step_of_unrounded_mean (Tests.mk [] [] [] [])).2.2.2.mpr
    (by norm_num [overallMean, categoryRate])

theorem avg_latency_view (t : Tests) :
    (calculate_summary t).average_ping_latency =
      (if (t.ping.filterMap (fun r =>
            if r.success && truthyOptQ r.latency_ms then r.latency_ms else none)).isEmpty
       then none
       else some (round2
         ((t.ping.filterMap (fun r =>
             if r.success && truthyOptQ r.latency_ms then r.latency_ms else none)).sum /
          ((t.ping.filterMap (fun r =>
             if r.success && truthyOptQ r.latency_ms then r.latency_ms else none)).length : ℚ)))) :=
  rfl

@[simp] theorem truthyOptQ_none : truthyOptQ none = false := rfl

@[simp] theorem truthyOptQ_some (v : ℚ) : truthyOptQ (some v) = decide (v ≠ 0) := rfl

theorem filterMap_latency_eq_pool (l : List PingResult) :
    l.filterMap (fun r => if r.success && truthyOptQ r.latency_ms then r.latency_ms else none) =
      nonzeroLatencyPool l := by
  induction l with
  | nil => rfl
  | cons r rest ih =>
      simp only [nonzeroLatencyPool, List.filterMap_cons, List.filter_cons] at ih ⊢
      by_cases h : (r.success && truthyOptQ r.latency_ms) = true
      · rcases hl : r.latency_ms with _ | x
        · rw [hl] at h
          simp at h
        · rw [hl] at h
          simp only [Bool.and_eq_true, truthyOptQ_some, decide_eq_true_eq] at h
          obtain ⟨h1, h2⟩ := h
          simpa [h1, h2, hl] using ih
      · simp only [Bool.not_eq_true] at h
        simpa [h] using ih

/-- C8 counterexample: on `latencyCexTests` both pings are successful and
report numeric latencies 10 and 0, so the claimed mean is `round2 5 = 5`;
the code instead excludes the zero latency (Python truthiness) and reports
an average of 10. -/
theorem c8_counterexample :
    (calculate_summary latencyCexTests).average_ping_latency = some 10 ∧
    round2 (((10 : ℚ) + 0) / 2) = 5 ∧ (10 : ℚ) ≠ 5 := by
  refine ⟨?_, ?_, by norm_num⟩
  · rw [avg_latency_view]
    norm_num [latencyCexTests, List.filterMap_cons, round2, pyRound]
  · norm_num [round2, pyRound]

/-- C8 (amended): the Summary's average ping latency is the mean, rounded to
two decimals, over exactly the successful ping entries whose reported latency
is numeric and nonzero (Python truthiness excludes both `None` and `0`), and
is absent exactly when no such entry exists. -/
theorem c8_average_latency_over_nonzero_pool (t : Tests) :
    (calculate_summary t).average_ping_latency =
      (if nonzeroLatencyPool t.ping = [] then none
       else some (round2 ((nonzeroLatencyPool t.ping).sum /
         ((nonzeroLatencyPool t.ping).length : ℚ)))) ∧
    ((calculate_summary t).average_ping_latency = none ↔ nonzeroLatencyPool t.ping = []) := by
  have h := avg_latency_view t
  rw [filterMap_latency_eq_pool] at h
  constructor
  · rw [h]
    rcases hp : nonzeroLatencyPool t.ping with _ | ⟨a, rest⟩ <;> simp
  · rw [h]
    rcases hp : nonzeroLatencyPool t.ping with _ | ⟨a, rest⟩ <;> simp

theorem c8_witness :
    (calculate_summary (Tests.mk [] [] [] [])).average_ping_latency = none :=
  (c8_average_latency_over_nonzero_pool (Tests.mk [] [] [] [])).2.mpr rfl

theorem issues_view (t : Tests) :
    (calculate_summary t).issues_detected =
      (if (calculate_summary t).ping_success_rate < 50 then
        (if t.ping.countP (fun r => !r.success && isPingCmdError r.error) = t.ping.length
         then [pingUnavailableIssue] else [packetLossIssue])
       else []) ++
      (if (calculate_summary t).dns_success_rate < 75 then [dnsIssue] else []) ++
      (if (calculate_summary t).http_success_rate < 75 then [httpIssue] else []) ++
      (if latencyFlag (calculate_summary t).average_ping_latency then [latencyIssue]
       else []) := rfl

theorem issue_strings_distinct :
    pingUnavailableIssue ≠ packetLossIssue ∧ pingUnavailableIssue ≠ dnsIssue ∧
    pingUnavailableIssue ≠ httpIssue ∧ pingUnavailableIssue ≠ latencyIssue ∧
    packetLossIssue ≠ dnsIssue ∧ packetLossIssue ≠ httpIssue ∧
    packetLossIssue ≠ latencyIssue ∧ dnsIssue ≠ httpIssue ∧
    dnsIssue ≠ latencyIssue ∧ httpIssue ≠ latencyIssue := by
  refine ⟨?_, ?_, ?_, ?_, ?_, ?_, ?_, ?_, ?_, ?_⟩ <;> decide

/-- C9: when the ping category is empty, the scoring engine reports a ping
success rate of 0 and emits the ping-tool-unavailable issue (the "all ping
outcomes carry a tooling-unavailable error" condition holds vacuously), and
never the high-packet-loss issue. -/
theorem c9_empty_ping_category (lh : List HttpResult) (ls : List HttpResult)
    (ld : List DnsResult) :
    (calculate_summary (Tests.mk [] lh ls ld)).ping_success_rate = 0 ∧
    pingUnavailableIssue ∈ (calculate_summary (Tests.mk [] lh ls ld)).issues_detected ∧
    packetLossIssue ∉ (calculate_summary (Tests.mk [] lh ls ld)).issues_detected := by
  have hrate : (calculate_summary (Tests.mk [] lh ls ld)).ping_success_rate = 0 := rfl
  refine ⟨hrate, ?_, ?_⟩
  · rw [issues_view, hrate, if_pos (by norm_num : (0:ℚ) < 50)]
    rw [show (List.countP (fun r => !r.success && isPingCmdError r.error)
      (Tests.mk [] lh ls ld).ping = (Tests.mk [] lh ls ld).ping.length) from rfl]
    simp
  · rw [issues_view, hrate, if_pos (by norm_num : (0:ℚ) < 50)]
    rw [show (List.countP (fun r => !r.success && isPingCmdError r.error)
      (Tests.mk [] lh ls ld).ping = (Tests.mk [] lh ls ld).ping.length) from rfl]
    simp [pingUnavailableIssue, packetLossIssue, dnsIssue, httpIssue, latencyIssue]

/-- C4: whenever the ping success rate is below 50, the scoring engine emits
the ping-tool-unavailable issue (and not the packet-loss issue) exactly when
every ping outcome is a failure carrying a tooling-unavailable-class error,
and emits the high-packet-loss issue (and not the tool-unavailable issue)
otherwise. -/
theorem c4_ping_issue_selection (t : Tests)
    (hrate : (calculate_summary t).ping_success_rate < 50) :
    ((∀ r ∈ t.ping, r.success = false ∧ isPingCmdError r.error = true) →
      pingUnavailableIssue ∈ (calculate_summary t).issues_detected ∧
      packetLossIssue ∉ (calculate_summary t).issues_detected) ∧
    ((¬ ∀ r ∈ t.ping, r.success = false ∧ isPingCmdError r.error = true) →
      packetLossIssue ∈ (calculate_summary t).issues_detected ∧
      pingUnavailableIssue ∉ (calculate_summary t).issues_detected) := by
  have hiff : (t.ping.countP (fun r => !r.success && isPingCmdError r.error) = t.ping.length) ↔
      (∀ r ∈ t.ping, r.success = false ∧ isPingCmdError r.error = true) := by
    rw [List.countP_eq_length]
    constructor <;> intro hall r hr <;> have hh := hall r hr <;>
      simpa [Bool.and_eq_true, Bool.not_eq_true'] using hh
  constructor
  · intro hall
    rw [issues_view, if_pos hrate, if_pos (hiff.mpr hall)]
    constructor
    · simp
    · simp [pingUnavailableIssue, packetLossIssue, dnsIssue, httpIssue, latencyIssue]
  · intro hnall
    have hne : ¬ (t.ping.countP (fun r => !r.success && isPingCmdError r.error) =
        t.ping.length) := fun hc => hnall (hiff.mp hc)
    rw [issues_view, if_pos hrate, if_neg hne]
    constructor
    · simp
    · simp [pingUnavailableIssue, packetLossIssue, dnsIssue, httpIssue, latencyIssue]

theorem c4_witness :
    pingUnavailableIssue ∈ (calculate_summary c4WitnessTests).issues_detected ∧
    packetLossIssue ∉ (calculate_summary c4WitnessTests).issues_detected :=
  (c4_ping_issue_selection c4WitnessTests
      (by norm_num [ping_rate_view, categoryRate, c4WitnessTests])).1
    (by decide)

/-- C6: recommendation generation is a deterministic function of
`(avg_score, uptime, issue tally keys)`: the result is never empty, the
single "appears acceptable" recommendation appears exactly when no rule
fires, and each firing rule contributes its fixed recommendation string. -/
theorem c6_recommendations_deterministic_nonempty (avg uptime : ℚ) (issues : List String) :
    generate_recommendations avg uptime issues ≠ [] ∧
    (generate_recommendations avg uptime issues = ["Connection quality appears acceptable"] ↔
      ¬ uptime < 95 ∧ ¬ avg < 75 ∧ packetLossIssue ∉ issues ∧ dnsIssue ∉ issues ∧
        latencyIssue ∉ issues) ∧
    (uptime < 95 →
      "Internet connectivity is below acceptable standards (95% uptime)" ∈
        generate_recommendations avg uptime issues) ∧
    (avg < 75 →
      "Overall connection quality is poor - contact ISP for service review" ∈
        generate_recommendations avg uptime issues) ∧
    (packetLossIssue ∈ issues →
      "High packet loss indicates network infrastructure problems" ∈
        generate_recommendations avg uptime issues) ∧
    (dnsIssue ∈ issues →
      "DNS problems detected - may need DNS server configuration review" ∈
        generate_recommendations avg uptime issues) ∧
    (latencyIssue ∈ issues →
      "Consistent high latency suggests routing or congestion issues" ∈
        generate_recommendations avg uptime issues) := by
  unfold generate_recommendations
  split_ifs with h1 h2 h3 h4 h5 <;> simp_all

theorem c6_witness :
    generate_recommendations 80 96 [] ≠ [] :=
  (c6_recommendations_deterministic_nonempty 80 96 []).1

/-- C5: each persistence step prepends the new record to the previously
existing records (so the first data row after the header is the most recent
snapshot and the remaining rows keep their prior relative order), and
persisting a sequence of snapshots starting from an absent log yields exactly
the reversed (newest-first) sequence. -/
theorem c5_persistence_newest_first {α : Type} (snaps : List α) :
    read_existing_rows (persist_all snaps) = snaps.reverse ∧
    (∀ (file : Option (List α)) (r : α),
      log_to_csv r file = some (r :: read_existing_rows file)) := by
  constructor
  · have hgen : ∀ (l : List α) (acc : Option (List α)),
        read_existing_rows (l.foldl (fun f r => log_to_csv r f) acc) =
          l.reverse ++ read_existing_rows acc := by
      intro l
      induction l with
      | nil => intro acc; simp
      | cons a rest ih =>
          intro acc
          simp only [List.foldl_cons, ih, List.reverse_cons, List.append_assoc]
          rfl
    simpa [persist_all, read_existing_rows] using hgen snaps none
  · intro file r
    rfl

/-- C7: for every probe set and every completion order of its workers, the
collected results mapping has exactly one entry per target — each entry being
either the worker's genuine outcome or the synthesized failure outcome — and
no worker exception escapes the fold. -/
theorem c7_orchestrator_completeness {α β : Type} [DecidableEq α]
    (targets order : List α) (worker : α → Except String β) (mkFail : String → β)
    (hperm : order.Perm targets) (hnodup : targets.Nodup) :
    ((collectResults order worker mkFail).map (fun p => p.1)).Perm targets ∧
    (collectResults order worker mkFail).length = targets.length ∧
    (∀ p ∈ collectResults order worker mkFail,
      (∃ v, worker p.1 = Except.ok v ∧ p.2 = v) ∨
      (∃ e, worker p.1 = Except.error e ∧ p.2 = mkFail e)) := by
  have honodup : order.Nodup := hperm.nodup_iff.mpr hnodup
  have hkeys : ∀ (l : List α) (m : List (α × β)), l.Nodup →
      (∀ a ∈ l, a ∉ m.map (fun p => p.1)) →
      ((l.foldl (fun m t => dictInsert m t (foldOutcome mkFail (worker t))) m).map
        (fun p => p.1)) = m.map (fun p => p.1) ++ l := by
    intro l
    induction l with
    | nil => intro m _ _; simp
    | cons a rest ih =>
        intro m hnd hdisj
        have hna : a ∉ m.map (fun p => p.1) := hdisj a (by simp)
        simp only [List.foldl_cons]
        rw [show dictInsert m a (foldOutcome mkFail (worker a)) =
            m ++ [(a, foldOutcome mkFail (worker a))] from by
          unfold dictInsert
          rw [if_neg hna]]
        rw [ih (m ++ [(a, foldOutcome mkFail (worker a))]) (List.nodup_cons.mp hnd).2 ?_]
        · simp
        · intro b hb
          simp only [List.map_append, List.mem_append]
          push_neg
          constructor
          · exact fun hc => hdisj b (by simp [hb]) hc
          · have hba : b ≠ a := fun hba => (List.nodup_cons.mp hnd).1 (hba ▸ hb)
            simp [hba]
  have hvals : ∀ (l : List α) (m : List (α × β)),
      (∀ p ∈ m, p.2 = foldOutcome mkFail (worker p.1)) →
      ∀ p ∈ l.foldl (fun m t => dictInsert m t (foldOutcome mkFail (worker t))) m,
        p.2 = foldOutcome mkFail (worker p.1) := by
    intro l
    induction l with
    | nil => intro m hm p hp; exact hm p hp
    | cons a rest ih =>
        intro m hm p hp
        refine ih (dictInsert m a (foldOutcome mkFail (worker a))) ?_ p hp
        intro q hq
        unfold dictInsert at hq
        split_ifs at hq with hmem
        · rcases List.mem_map.mp hq with ⟨q0, hq0, hqeq⟩
          by_cases hq0a : q0.1 = a
          · rw [if_pos hq0a] at hqeq
            rw [← hqeq]
          · rw [if_neg hq0a] at hqeq
            rw [← hqeq]
            exact hm q0 hq0
        · rcases List.mem_append.mp hq with hq1 | hq2
          · exact hm q hq1
          · rcases List.mem_singleton.mp hq2 with h
            rw [h]
  have hkeys0 := hkeys order [] honodup (by simp)
  refine ⟨?_, ?_, ?_⟩
  · rw [show collectResults order worker mkFail =
        order.foldl (fun m t => dictInsert m t (foldOutcome mkFail (worker t))) [] from rfl]
    rw [hkeys0]
    simpa using hperm
  · have hlen : ((collectResults order worker mkFail).map (fun p => p.1)).length =
        order.length := by
      rw [show collectResults order worker mkFail =
          order.foldl (fun m t => dictInsert m t (foldOutcome mkFail (worker t))) [] from rfl]
      rw [hkeys0]
      simp
    rw [List.length_map] at hlen
    rw [hlen]
    exact hperm.length_eq
  · intro p hp
    have hval := hvals order [] (by simp) p hp
    rcases hw : worker p.1 with e | v
    · right
      refine ⟨e, rfl, ?_⟩
      rw [hval, hw]
      rfl
    · left
      refine ⟨v, rfl, ?_⟩
      rw [hval, hw]
      rfl

theorem takeWhile_len_le {α : Type} (p : α → Bool) :
    ∀ l : List α, (l.takeWhile p).length ≤ l.length := by
  intro l
  induction l with
  | nil => simp
  | cons x r ih =>
      by_cases hx : p x
      · simp only [List.takeWhile_cons, hx, if_true, List.length_cons]
        omega
      · simp [List.takeWhile_cons, hx]

theorem getD_takeWhile_true {α : Type} (p : α → Bool) (d : α) :
    ∀ (l : List α) (m : ℕ), m < (l.takeWhile p).length → p (l.getD m d) = true := by
  intro l
  induction l with
  | nil => simp
  | cons x r ih =>
      intro m hm
      by_cases hx : p x
      · rcases m with _ | m
        · simpa using hx
        · rw [List.getD_cons_succ]
          refine ih m ?_
          simp only [List.takeWhile_cons, hx, if_true, List.length_cons] at hm
          omega
      · simp [List.takeWhile_cons, hx] at hm

theorem getD_at_takeWhile_len {α : Type} (p : α → Bool) (d : α) :
    ∀ l : List α, (l.takeWhile p).length < l.length →
      p (l.getD (l.takeWhile p).length d) = false := by
  intro l
  induction l with
  | nil => simp
  | cons x r ih =>
      intro hlt
      by_cases hx : p x
      · simp only [List.takeWhile_cons, hx, if_true, List.length_cons] at hlt ⊢
        rw [List.getD_cons_succ]
        exact ih (by omega)
      · simp only [List.takeWhile_cons, hx, if_false, List.length_nil, List.getD_cons_zero]
        exact Bool.of_not_eq_true hx

theorem getD_drop_add {α : Type} (d : α) :
    ∀ (l : List α) (n m : ℕ), (l.drop n).getD m d = l.getD (n + m) d := by
  intro l
  induction l with
  | nil => intro n m; simp
  | cons x r ih =>
      intro n m
      rcases n with _ | n
      · rw [List.drop_zero, Nat.zero_add]
      · rw [List.drop_succ_cons, ih n m, show n + 1 + m = (n + m) + 1 from by omega,
          List.getD_cons_succ]

theorem outagesAux_some_eq (l : List ℚ) :
    ∀ (i s : ℕ),
      outagesAux l i (some s) =
        (s, i + (l.takeWhile (fun x => decide (x < 50))).length - 1) ::
          outagesAux (l.drop ((l.takeWhile (fun x => decide (x < 50))).length + 1))
            (i + (l.takeWhile (fun x => decide (x < 50))).length + 1) none := by
  induction l with
  | nil => intro i s; simp [outagesAux]
  | cons x r ih =>
      intro i s
      by_cases hx : x < 50
      · rw [show outagesAux (x :: r) i (some s) = outagesAux r (i + 1) (some s) from by
          simp [outagesAux, hx]]
        rw [ih (i + 1) s]
        have htw : ((x :: r).takeWhile (fun x => decide (x < 50))).length =
            (r.takeWhile (fun x => decide (x < 50))).length + 1 := by
          simp [List.takeWhile_cons, hx]
        rw [htw]
        rw [show (x :: r).drop ((r.takeWhile (fun x => decide (x < 50))).length + 1 + 1) =
            r.drop ((r.takeWhile (fun x => decide (x < 50))).length + 1) from
          List.drop_succ_cons]
        rw [show i + 1 + (r.takeWhile (fun x => decide (x < 50))).length - 1 =
            i + ((r.takeWhile (fun x => decide (x < 50))).length + 1) - 1 from by omega]
        rw [show i + 1 + (r.takeWhile (fun x => decide (x < 50))).length + 1 =
            i + ((r.takeWhile (fun x => decide (x < 50))).length + 1) + 1 from by omega]
      · have htw : ((x :: r).takeWhile (fun x => decide (x < 50))).length = 0 := by
          simp [List.takeWhile_cons, hx]
        rw [htw]
        rw [show outagesAux (x :: r) i (some s) =
            (s, i - 1) :: outagesAux r (i + 1) none from by simp [outagesAux, hx]]
        rw [show (x :: r).drop (0 + 1) = r from List.drop_succ_cons]
        rw [show i + 0 - 1 = i - 1 from by omega, show i + 0 + 1 = i + 1 from by omega]

theorem outagesAux_none_eq :
    ∀ (n : ℕ) (l : List ℚ), l.length ≤ n → ∀ i,
      outagesAux l i none = maximalLowRuns i l := by
  intro n
  induction n with
  | zero =>
      intro l hl i
      have hnil : l = [] := List.length_eq_zero.mp (by omega)
      subst hnil
      simp [outagesAux, maximalLowRuns]
  | succ n ih =>
      intro l hl i
      rcases l with _ | ⟨x, r⟩
      · simp [outagesAux, maximalLowRuns]
      · by_cases hx : x < 50
        · rw [show outagesAux (x :: r) i none = outagesAux r (i + 1) (some i) from by
            simp [outagesAux, hx]]
          rw [outagesAux_some_eq r (i + 1) i]
          rw [show maximalLowRuns i (x :: r) =
              (i, i + (r.takeWhile (fun x => decide (x < 50))).length) ::
                maximalLowRuns (i + (r.takeWhile (fun x => decide (x < 50))).length + 1)
                  (r.drop (r.takeWhile (fun x => decide (x < 50))).length) from by
            rw [maximalLowRuns]
            simp [hx]]
          have harith : i + 1 + (r.takeWhile (fun x => decide (x < 50))).length - 1 =
              i + (r.takeWhile (fun x => decide (x < 50))).length := by omega
          rw [harith]
          refine congrArg _ ?_
          set k := (r.takeWhile (fun x => decide (x < 50))).length with hk
          rcases hdrop : r.drop k with _ | ⟨c, r2⟩
          · rw [show r.drop (k + 1) = [] from by
              rw [← List.drop_drop, List.drop_one, hdrop]
              rfl]
            simp [outagesAux, maximalLowRuns]
          · have hklt : k < r.length := by
              by_contra hge
              rw [List.drop_eq_nil_of_le (by omega)] at hdrop
              exact List.noConfusion hdrop
            have hc : ¬ c < 50 := by
              have hfalse := getD_at_takeWhile_len (fun x => decide (x < 50)) 0 r hklt
              rw [← hk] at hfalse
              rw [show r.getD k 0 = c from by
                have := getD_drop_add (0:ℚ) r k 0
                rw [hdrop] at this
                simpa using this.symm] at hfalse
              simpa using hfalse
            rw [show r.drop (k + 1) = r2 from by
              rw [← List.drop_drop, List.drop_one, hdrop]
              rfl]
            rw [show maximalLowRuns (i + k + 1) (c :: r2) =
                maximalLowRuns (i + k + 1 + 1) r2 from by
              rw [maximalLowRuns]
              simp [hc]]
            have hr2 : r2.length ≤ n := by
              have hlen := congrArg List.length hdrop
              rw [List.length_drop] at hlen
              simp only [List.length_cons] at hlen hl
              omega
            rw [show i + 1 + k + 1 = i + k + 1 + 1 from by omega]
            exact ih r2 hr2 (i + k + 1 + 1)
        · rw [show outagesAux (x :: r) i none = outagesAux r (i + 1) none from by
            simp [outagesAux, hx]]
          rw [show maximalLowRuns i (x :: r) = maximalLowRuns (i + 1) r from by
            rw [maximalLowRuns]
            simp [hx]]
          exact ih r (by simpa using Nat.lt_succ_iff.mp (by
            simpa using Nat.lt_of_lt_of_le (Nat.lt_succ_self r.length) hl)) (i + 1)

theorem outages_eq_maximalLowRuns (scores : List ℚ) :
    outages scores = maximalLowRuns 0 scores :=
  outagesAux_none_eq scores.length scores le_rfl 0

theorem maximalLowRuns_mem_iff :
    ∀ (n : ℕ) (l : List ℚ), l.length ≤ n → ∀ (i s e : ℕ),
      ((s, e) ∈ maximalLowRuns i l ↔
        i ≤ s ∧ s ≤ e ∧ e < i + l.length ∧
        (∀ j, s ≤ j → j ≤ e → l.getD (j - i) 0 < 50) ∧
        (s = i ∨ ¬ l.getD (s - 1 - i) 0 < 50) ∧
        (e + 1 = i + l.length ∨ ¬ l.getD (e + 1 - i) 0 < 50)) := by
  intro n
  induction n with
  | zero =>
      intro l hl i s e
      have hnil : l = [] := List.length_eq_zero.mp (by omega)
      subst hnil
      constructor
      · intro h
        exact absurd h (by simp [maximalLowRuns])
      · rintro ⟨h1, h2, h3, -, -, -⟩
        exfalso
        simp only [List.length_nil] at h3
        omega
  | succ n ih =>
      intro l hl i s e
      rcases l with _ | ⟨x, r⟩
      · constructor
        · intro h
          exact absurd h (by simp [maximalLowRuns])
        · rintro ⟨h1, h2, h3, -, -, -⟩
          exfalso
          simp only [List.length_nil] at h3
          omega
      · by_cases hx : x < 50
        · -- first element of the list starts a run
          set k := (r.takeWhile (fun y => decide (y < 50))).length with hk
          have hkle : k ≤ r.length := takeWhile_len_le _ r
          have hbelow : ∀ m : ℕ, m ≤ k → (x :: r).getD m 0 < 50 := by
            intro m hm
            rcases m with _ | m
            · simpa using hx
            · rw [List.getD_cons_succ]
              have hmk : m < k := by omega
              have := getD_takeWhile_true (fun y => decide (y < 50)) 0 r m (by
                rw [← hk]; omega)
              simpa using this
          have hrun : maximalLowRuns i (x :: r) =
              (i, i + k) :: maximalLowRuns (i + k + 1) (r.drop k) := by
            rw [maximalLowRuns]
            simp [hx, ← hk]
          rw [hrun, List.mem_cons]
          rcases hdrop : r.drop k with _ | ⟨c, r2⟩
          · -- the run reaches the end of the list
            have hkr : k = r.length := by
              have hlen := congrArg List.length hdrop
              rw [List.length_drop] at hlen
              simp only [List.length_nil] at hlen
              omega
            have hall : ∀ m : ℕ, (x :: r).getD m 0 < 50 := by
              intro m
              by_cases hm : m ≤ k
              · exact hbelow m hm
              · rw [List.getD_eq_getElem?_getD, List.getElem?_eq_none (by
                  simp only [List.length_cons]; omega), Option.getD_none]
                norm_num
            constructor
            · rintro (heq | hmem)
              · injection heq with hs he
                refine ⟨by omega, by omega, by simp only [List.length_cons]; omega,
                  ?_, Or.inl hs, Or.inl (by simp only [List.length_cons]; omega)⟩
                intro j hj1 hj2
                exact hbelow (j - i) (by omega)
              · exact absurd hmem (by simp [maximalLowRuns])
            · rintro ⟨h1, h2, h3, h4, h5, h6⟩
              left
              have hs : s = i := by
                rcases h5 with h5 | h5
                · exact h5
                · exact absurd (hall (s - 1 - i)) h5
              have he : e = i + k := by
                rcases h6 with h6 | h6
                · simp only [List.length_cons] at h6
                  omega
                · exact absurd (hall (e + 1 - i)) h6
              rw [hs, he]
          · -- the run is followed by a score at or above the threshold
            have hklt : k < r.length := by
              by_contra hge
              rw [List.drop_eq_nil_of_le (by omega)] at hdrop
              exact List.noConfusion hdrop
            have hr2len : r2.length = r.length - k - 1 := by
              have hlen := congrArg List.length hdrop
              rw [List.length_drop] at hlen
              simp only [List.length_cons] at hlen
              omega
            have hdrop1 : r.drop (k + 1) = r2 := by
              rw [← List.drop_drop, List.drop_one, hdrop]
              rfl
            have hgetc : (x :: r).getD (k + 1) 0 = c := by
              rw [List.getD_cons_succ]
              have hg := getD_drop_add (0 : ℚ) r k 0
              rw [hdrop] at hg
              simpa using hg.symm
            have hc : ¬ c < 50 := by
              have hfalse := getD_at_takeWhile_len (fun y => decide (y < 50)) 0 r hklt
              rw [← hk] at hfalse
              rw [show r.getD k 0 = c from by
                have hg := getD_drop_add (0 : ℚ) r k 0
                rw [hdrop] at hg
                simpa using hg.symm] at hfalse
              simpa using hfalse
            have htrans : ∀ m : ℕ, k + 2 ≤ m →
                (x :: r).getD m 0 = r2.getD (m - (k + 2)) 0 := by
              intro m hm
              rw [show m = (m - 1) + 1 from by omega, List.getD_cons_succ]
              have hg := getD_drop_add (0 : ℚ) r (k + 1) (m - 1 - (k + 1))
              rw [hdrop1] at hg
              rw [show k + 1 + (m - 1 - (k + 1)) = m - 1 from by omega] at hg
              rw [← hg, show m - 1 - (k + 1) = m - 1 + 1 - (k + 2) from by omega,
                show m - 1 + 1 = m from by omega]
            have hrec : maximalLowRuns (i + k + 1) (c :: r2) =
                maximalLowRuns (i + k + 2) r2 := by
              rw [maximalLowRuns, if_neg hc]
            rw [hrec, ih r2 (by simp only [List.length_cons] at hl; omega) (i + k + 2) s e]
            constructor
            · rintro (heq | ⟨h1, h2, h3, h4, h5, h6⟩)
              · injection heq with hs he
                refine ⟨by omega, by omega, by simp only [List.length_cons]; omega,
                  ?_, Or.inl hs, ?_⟩
                · intro j hj1 hj2
                  exact hbelow (j - i) (by omega)
                · right
                  rw [show e + 1 - i = k + 1 from by omega, hgetc]
                  exact hc
              · refine ⟨by omega, h2, ?_, ?_, ?_, ?_⟩
                · simp only [List.length_cons]
                  omega
                · intro j hj1 hj2
                  rw [htrans (j - i) (by omega),
                    show j - i - (k + 2) = j - (i + k + 2) from by omega]
                  exact h4 j hj1 hj2
                · by_cases hs2 : s = i + k + 2
                  · right
                    rw [show s - 1 - i = k + 1 from by omega, hgetc]
                    exact hc
                  · rcases h5 with h5 | h5
                    · exact absurd h5 hs2
                    · right
                      rw [htrans (s - 1 - i) (by omega),
                        show s - 1 - i - (k + 2) = s - 1 - (i + k + 2) from by omega]
                      exact h5
                · rcases h6 with h6 | h6
                  · left
                    simp only [List.length_cons]
                    omega
                  · right
                    rw [htrans (e + 1 - i) (by omega),
                      show e + 1 - i - (k + 2) = e + 1 - (i + k + 2) from by omega]
                    exact h6
            · rintro ⟨h1, h2, h3, h4, h5, h6⟩
              by_cases hs : s = i
              · left
                have he : e = i + k := by
                  by_cases hlt : e < i + k
                  · exfalso
                    rcases h6 with h6 | h6
                    · simp only [List.length_cons] at h6
                      omega
                    · exact h6 (hbelow (e + 1 - i) (by omega))
                  · by_cases hgt : i + k < e
                    · exfalso
                      have hbad := h4 (i + k + 1) (by omega) (by omega)
                      rw [show i + k + 1 - i = k + 1 from by omega, hgetc] at hbad
                      exact hc hbad
                    · omega
                rw [hs, he]
              · right
                have hsge : i + k + 2 ≤ s := by
                  by_contra hlt
                  rcases h5 with h5 | h5
                  · exact hs h5
                  · exact h5 (hbelow (s - 1 - i) (by omega))
                refine ⟨hsge, h2, ?_, ?_, ?_, ?_⟩
                · simp only [List.length_cons] at h3
                  omega
                · intro j hj1 hj2
                  have hbj := h4 j hj1 hj2
                  rw [htrans (j - i) (by omega),
                    show j - i - (k + 2) = j - (i + k + 2) from by omega] at hbj
                  exact hbj
                · by_cases hs2 : s = i + k + 2
                  · left
                    exact hs2
                  · rcases h5 with h5 | h5
                    · exact absurd h5 hs
                    · right
                      rw [htrans (s - 1 - i) (by omega),
                        show s - 1 - i - (k + 2) = s - 1 - (i + k + 2) from by omega] at h5
                      exact h5
                · rcases h6 with h6 | h6
                  · left
                    simp only [List.length_cons] at h6
                    omega
                  · right
                    rw [htrans (e + 1 - i) (by omega),
                      show e + 1 - i - (k + 2) = e + 1 - (i + k + 2) from by omega] at h6
                    exact h6
        · -- first element does not start a run
          have hrun : maximalLowRuns i (x :: r) = maximalLowRuns (i + 1) r := by
            rw [maximalLowRuns]
            simp [hx]
          rw [hrun, ih r (by simp only [List.length_cons] at hl; omega) (i + 1) s e]
          constructor
          · rintro ⟨h1, h2, h3, h4, h5, h6⟩
            refine ⟨by omega, h2, by simp only [List.length_cons]; omega, ?_, ?_, ?_⟩
            · intro j hj1 hj2
              rw [show j - i = (j - (i + 1)) + 1 from by omega, List.getD_cons_succ]
              exact h4 j hj1 hj2
            · by_cases hs2 : s = i + 1
              · right
                rw [show s - 1 - i = 0 from by omega, List.getD_cons_zero]
                exact hx
              · rcases h5 with h5 | h5
                · exact absurd h5 hs2
                · right
                  rw [show s - 1 - i = (s - 1 - (i + 1)) + 1 from by omega,
                    List.getD_cons_succ]
                  exact h5
            · rcases h6 with h6 | h6
              · left
                simp only [List.length_cons]
                omega
              · right
                rw [show e + 1 - i = (e + 1 - (i + 1)) + 1 from by omega,
                  List.getD_cons_succ]
                exact h6
          · rintro ⟨h1, h2, h3, h4, h5, h6⟩
            have hsne : s ≠ i := by
              intro hsi
              have hbad := h4 s le_rfl h2
              rw [hsi, Nat.sub_self, List.getD_cons_zero] at hbad
              exact hx hbad
            refine ⟨by omega, h2, by simp only [List.length_cons] at h3; omega, ?_, ?_, ?_⟩
            · intro j hj1 hj2
              have hbj := h4 j hj1 hj2
              rw [show j - i = (j - (i + 1)) + 1 from by omega, List.getD_cons_succ] at hbj
              exact hbj
            · by_cases hs2 : s = i + 1
              · left
                exact hs2
              · rcases h5 with h5 | h5
                · exact absurd h5 hsne
                · right
                  rw [show s - 1 - i = (s - 1 - (i + 1)) + 1 from by omega,
                    List.getD_cons_succ] at h5
                  exact h5
            · rcases h6 with h6 | h6
              · left
                simp only [List.length_cons] at h6
                omega
              · right
                rw [show e + 1 - i = (e + 1 - (i + 1)) + 1 from by omega,
                  List.getD_cons_succ] at h6
                exact h6

/-- C3: the aggregator's outage scan groups exactly the maximal consecutive
runs of records with score < 50 (scanning the stored, newest-first order)
into outage intervals; each detail entry reports the boundary records'
timestamps and a duration equal to the number of records in the run; and on
the stored scores [80, 40, 30, 90, 20] exactly the two intervals (1,2) and
(4,4) are detected. -/
theorem c3_outage_intervals_are_maximal_low_runs :
    (∀ (scores : List ℚ) (s e : ℕ),
      (s, e) ∈ outages scores ↔
        s ≤ e ∧ e < scores.length ∧
        (∀ j, s ≤ j → j ≤ e → scores.getD j 0 < 50) ∧
        (s = 0 ∨ ¬ scores.getD (s - 1) 0 < 50) ∧
        (e + 1 = scores.length ∨ ¬ scores.getD (e + 1) 0 < 50)) ∧
    (∀ rows : List LogRow, outage_details rows =
      (outages (rows.map (fun r => r.overall_score))).map (fun p =>
        ((rows.getD p.1 ⟨"", 0⟩).timestamp, (rows.getD p.2 ⟨"", 0⟩).timestamp,
          p.2 - p.1 + 1))) ∧
    outages [80, 40, 30, 90, 20] = [(1, 2), (4, 4)] := by
  refine ⟨?_, fun rows => rfl, ?_⟩
  · intro scores s e
    rw [outages_eq_maximalLowRuns,
      maximalLowRuns_mem_iff scores.length scores le_rfl 0 s e]
    constructor
    · rintro ⟨-, h2, h3, h4, h5, h6⟩
      refine ⟨h2, by omega, ?_, ?_, ?_⟩
      · intro j hj1 hj2
        have hh := h4 j hj1 hj2
        rwa [Nat.sub_zero] at hh
      · rcases h5 with h5 | h5
        · left
          exact h5
        · right
          rwa [Nat.sub_zero] at h5
      · rcases h6 with h6 | h6
        · left
          omega
        · right
          rwa [Nat.sub_zero] at h6
    · rintro ⟨h2, h3, h4, h5, h6⟩
      refine ⟨Nat.zero_le s, h2, by omega, ?_, ?_, ?_⟩
      · intro j hj1 hj2
        rw [Nat.sub_zero]
        exact h4 j hj1 hj2
      · rcases h5 with h5 | h5
        · left
          exact h5
        · right
          rwa [Nat.sub_zero]
      · rcases h6 with h6 | h6
        · left
          omega
        · right
          rwa [Nat.sub_zero]
  · show outagesAux [80, 40, 30, 90, 20] 0 none = [(1, 2), (4, 4)]
    norm_num [outagesAux]

theorem c3_witness :
    outages [80, 40, 30, 90, 20] = [(1, 2), (4, 4)] :=
  c3_outage_intervals_are_maximal_low_runs.2.2

theorem c7_witness :
    (collectResults [2, 0, 1]
      (fun t => if t = 1 then Except.error "boom" else Except.ok t)
      (fun _ => (999 : ℕ))).length = 3 := by
  have h := c7_orchestrator_completeness (α := ℕ) (β := ℕ) [0, 1, 2] [2, 0, 1]
    (fun t => if t = 1 then Except.error "boom" else Except.ok t)
    (fun _ => (999 : ℕ)) (by decide) (by decide)
  simpa using h.2.1

theorem issues_detected_mem_cases (t : Tests) :
    (calculate_summary t).issues_detected ∈ issueListCases := by
  rw [issues_view]
  split_ifs <;> decide

theorem issue_cases_round_trip :
    ∀ l ∈ issueListCases,
      talliedIssues (joinIssues l) = l.map String.toList ∧ l.Nodup := by
  decide

/-- C10: for every issue list the scoring engine emits (tags drawn from the
fixed issue-string set, none containing the separator "; "), joining with
"; " at persistence time and re-splitting (plus stripping and dropping empty
parts, with the falsy-field guard) in the aggregator's tally recovers exactly
the original list; the list is also duplicate-free, so each emitted issue is
counted exactly once per record. -/
theorem c10_issue_join_split_round_trip (t : Tests) :
    talliedIssues (joinIssues (calculate_summary t).issues_detected) =
      ((calculate_summary t).issues_detected).map String.toList ∧
    ((calculate_summary t).issues_detected).Nodup :=
  issue_cases_round_trip _ (issues_detected_mem_cases t)

end WifiMonitor
